import Mathlib

/-!
# cactus: FASTA chunk merging and the multiple aligner's contract

Two parts of the repository are covered.

* `preprocessor/cactus_batch_mergeChunks.c`: the callback `readFastaCallback`
  and `main`, embedded as pure functions over an explicit output stream, an
  explicit standard-error stream and an explicit file system.
* `bar/tests/multipleAlignerTest.c`: the test oracle `checkAlignment` and the
  functions it exercises (`makeColumns`, `getReferencePairwiseAlignments`,
  `getDistanceMatrix`, `subsPerSite`, `makeAlignmentUsingAllPairs`,
  `makeAlignment`), whose implementation file is not part of the sources at
  hand and is therefore modelled from the design document.
-/

namespace Cactus

/-! ## Part 1: `cactus_batch_mergeChunks.c` -/

namespace MergeChunks

/-- The library routines `readFastaCallback` calls (sonLib's `bioioC.h` and
the C library). They are not defined in this repository, so the embedding
takes them as parameters.

* `fastaDecodeHeader`: the attribute list of a FASTA header;
* `fastaEncodeHeader`: the header text of an attribute list;
* `sscanfInt64 s`: the effect of `sscanf(s, "%" PRIi64, &offset)`:
  `some v` when the call returns `1` and stores `v`, `none` otherwise;
* `assertDiagnostic e`: the text a failing `assert(e)` prints on standard
  error (implementation defined). -/
structure BioLib where
  fastaDecodeHeader : String → List String
  fastaEncodeHeader : List String → String
  sscanfInt64 : String → Option Int
  assertDiagnostic : String → String

/-- One `fprintf(outputFile, ...)` call, tagged by its call site. -/
inductive Write where
  /-- `fprintf(outputFile, ">%s\n", cA)` (line 37). -/
  | header (cA : String)
  /-- `fprintf(outputFile, "%s\n", sequence)` (line 41). -/
  | body (sequence : String)
deriving DecidableEq, Repr

/-- The characters a write puts into the stream. -/
def Write.render : Write → String
  | .header cA => ">" ++ cA ++ "\n"
  | .body sequence => sequence ++ "\n"

/-- Whether a write comes from the sequence call site (line 41). -/
def Write.isBody : Write → Bool
  | .header _ => false
  | .body _ => true

/-- Whether a write comes from the header call site (line 37). -/
def Write.isHeader : Write → Bool
  | .header _ => true
  | .body _ => false

/-- The contents of a stream: its writes, rendered, one after the other. -/
def contents (writes : List Write) : String :=
  String.join (writes.map Write.render)

/-- How the callback can fail to return. -/
inductive Fault where
  /-- A failing `assert(expr)`: diagnostic on standard error, then `abort()`. -/
  | assertion (expr : String)
  /-- The C standard or the contract of a library leaves the behaviour
  undefined. -/
  | undefinedBehaviour
deriving DecidableEq, Repr

/-- The function `readFastaCallback` (lines 27-42), with the static
`outputFile` stream passed explicitly as the list of writes made so far.
`ndebug` tells whether the program was compiled with `NDEBUG`, which turns
the two `assert`s into no-ops.

* `stList_peek` of an empty attribute list has no last element to return,
  which is outside the contract of the list library;
* when `sscanf` does not return `1`, `assert(i == 1)` fails; with `NDEBUG`
  the comparison `offset == 0` then reads an uninitialised variable;
* a negative offset fails `assert(offset >= 0)`; with `NDEBUG` the callback
  goes on, and the offset is not zero. -/
def readFastaCallback (lib : BioLib) (ndebug : Bool) (outputFile : List Write)
    (fastaHeader sequence : String) (_length : Int) : Except Fault (List Write) :=
  let attributes := lib.fastaDecodeHeader fastaHeader
  match attributes.getLast? with
  | none => .error .undefinedBehaviour
  | some last =>
    match lib.sscanfInt64 last with
    | none => if ndebug then .error .undefinedBehaviour else .error (.assertion "i == 1")
    | some offset =>
      if offset < 0 ∧ ndebug = false then .error (.assertion "offset >= 0")
      else
        let outputFile :=
          if offset = 0 then
            outputFile ++ [Write.header (lib.fastaEncodeHeader attributes.dropLast)]
          else outputFile
        .ok (outputFile ++ [Write.body sequence])

/-- A FASTA record as `fastaReadToFunction` hands it to its callback: the
header line without the leading `>`, and the sequence. The third argument of
the callback is the length of the sequence. -/
structure FastaRecord where
  fastaHeader : String
  sequence : String
deriving DecidableEq, Repr

/-- The library reader `fastaReadToFunction(file, callback)` on an open
stream holding `records`: the callback is called once per record, in file
order. A callback that does not return ends the run; the stream then holds
what was written before the failing call. -/
def fastaReadToFunction (callback : List Write → String → String → Int → Except Fault (List Write)) :
    List FastaRecord → List Write → List Write × Option Fault
  | [], outputFile => (outputFile, none)
  | r :: rest, outputFile =>
    match callback outputFile r.fastaHeader r.sequence r.sequence.length with
    | .error f => (outputFile, some f)
    | .ok outputFile1 => fastaReadToFunction callback rest outputFile1

/-- What `fopen` answers. `fopenW path` tells whether `fopen(path, "w+")`
returns a stream; `fopenR path` is `none` when `fopen(path, "r")` returns
`NULL`, and otherwise the records the FASTA reader finds in the file when it
is read. Writes are taken to succeed. -/
structure FileSystem where
  fopenW : String → Bool
  fopenR : String → Option (List FastaRecord)

/-- How a run of `main` ends. -/
inductive Termination where
  /-- The statement `return code;` of `main` was reached. -/
  | returned (code : Int)
  /-- An `assert` failed and the process was aborted. -/
  | aborted
  /-- The run reached behaviour the C standard, or the contract of a library,
  leaves undefined. -/
  | undefined
deriving DecidableEq, Repr

/-- What a run of `main` did: how it ended, what it wrote to standard error,
the `fopen` calls it made (path and mode, in order), and the writes to
`outputFile` (`none` while `outputFile` is `NULL`). -/
structure Run where
  status : Termination
  stderr : List String
  opened : List (String × String)
  outputFile : Option (List Write)
deriving DecidableEq, Repr

/-- The usage text of lines 46-50; a backslash at the end of a source line
splices the next line, leading blanks included, into the string literal. -/
def usageText (argv0 : String) : String :=
  "USAGE: " ++ argv0 ++ " <output> <input>xN\n \t\t        <output>: target fasta file\n " ++
    "\t\t\t\t<input>xN: list of chunk files\n \\n\n"

/-- The error text of line 58. -/
def cannotOpenText (path : String) : String :=
  "ERROR: cannot open " ++ path ++ " for writing\n"

/-- The loop of lines 62-66 over the chunk files still to read, with the
`fopen` calls made so far and the writes made so far. The stream returned by
`fopen` is handed to `fastaReadToFunction` and to `fclose` unchecked, so a
`NULL` stream reaches them, which the C standard leaves undefined. -/
def mergeChunks (lib : BioLib) (ndebug : Bool) (fs : FileSystem) :
    List String → List (String × String) → List Write → Run
  | [], opened, outputFile =>
    { status := .returned 0, stderr := [], opened := opened, outputFile := some outputFile }
  | chunk :: rest, opened, outputFile =>
    match fs.fopenR chunk with
    | none =>
      { status := .undefined, stderr := [], opened := opened ++ [(chunk, "r")],
        outputFile := some outputFile }
    | some records =>
      match fastaReadToFunction (readFastaCallback lib ndebug) records outputFile with
      | (outputFile1, some (.assertion expr)) =>
        { status := .aborted, stderr := [lib.assertDiagnostic expr],
          opened := opened ++ [(chunk, "r")], outputFile := some outputFile1 }
      | (outputFile1, some .undefinedBehaviour) =>
        { status := .undefined, stderr := [], opened := opened ++ [(chunk, "r")],
          outputFile := some outputFile1 }
      | (outputFile1, none) =>
        mergeChunks lib ndebug fs rest (opened ++ [(chunk, "r")]) outputFile1

/-- The function `main` (lines 44-70). `argv0` is `argv[0]` and `args` are
`argv[1]`, ..., `argv[argc-1]`, so that `argc = args.length + 1`. -/
def main (lib : BioLib) (ndebug : Bool) (fs : FileSystem) (argv0 : String) (args : List String) :
    Run :=
  match args with
  | [] =>
    { status := .returned (-1), stderr := [usageText argv0], opened := [], outputFile := none }
  | output :: chunks =>
    if fs.fopenW output = false then
      { status := .returned (-1), stderr := [cannotOpenText output],
        opened := [(output, "w+")], outputFile := none }
    else
      mergeChunks lib ndebug fs chunks [(output, "w+")] []

/-- Splitting at a separator the way `strtok` does: runs of separators count
as one, and no empty token is produced. `cur` holds, reversed, the characters
of the token being read. -/
def tokens (sep : Char) : List Char → List Char → List String
  | [], cur => if cur = [] then [] else [String.mk cur.reverse]
  | c :: cs, cur =>
    if c = sep then
      if cur = [] then tokens sep cs [] else String.mk cur.reverse :: tokens sep cs []
    else tokens sep cs (c :: cur)

/-- The value of a plain decimal numeral without sign: `some n` for `0` and
for a string of decimal digits that does not start with `0`, `none` for
anything else. -/
def magnitude (digits : List Char) : Option Nat :=
  match digits with
  | [] => none
  | [c] => if c.isDigit then some (c.toNat - 48) else none
  | c :: cs =>
    if c ≠ '0' ∧ (c :: cs).all Char.isDigit then
      some ((c :: cs).foldl (fun n d => 10 * n + (d.toNat - 48)) 0)
    else none

/-- The value of a plain decimal numeral with an optional sign; `none` for
anything else. -/
def decimal (s : String) : Option Int :=
  match s.toList with
  | '-' :: digits => (magnitude digits).map fun n => -(n : Int)
  | '+' :: digits => (magnitude digits).map fun n => (n : Int)
  | digits => (magnitude digits).map fun n => (n : Int)

/-- A reference instance of the library parameters, used to run the model on
concrete command lines: attributes are separated by `|`, and offsets are
plain decimal numerals with an optional sign (on which `sscanf` with `%i`
and `decimal` agree; on a text that does not start like a number both report
that nothing was read). -/
def refLib : BioLib where
  fastaDecodeHeader h := tokens '|' h.toList []
  fastaEncodeHeader attributes := "|".intercalate attributes
  sscanfInt64 := decimal
  assertDiagnostic expr := "Assertion failed: " ++ expr ++ "\n"

/-- The offset of a record: what `sscanf` reads from the last attribute of
its header, when there is a last attribute and `sscanf` returns `1`. -/
def offsetOf (lib : BioLib) (fastaHeader : String) : Option Int :=
  match (lib.fastaDecodeHeader fastaHeader).getLast? with
  | none => none
  | some last => lib.sscanfInt64 last

/-- The header of a record with its trailing attribute removed, encoded
again: the name of the logical sequence the record is a chunk of. -/
def strippedHeader (lib : BioLib) (fastaHeader : String) : String :=
  lib.fastaEncodeHeader (lib.fastaDecodeHeader fastaHeader).dropLast

/-- A record the callback returns on: its header has a trailing attribute
that `sscanf` reads, and the offset read is not negative unless the
assertions are compiled out. -/
def wellFormed (lib : BioLib) (ndebug : Bool) (r : FastaRecord) : Bool :=
  match offsetOf lib r.fastaHeader with
  | none => false
  | some offset => ndebug || decide (0 ≤ offset)

/-- Every chunk file of the list opens for reading and holds well-formed
records only. -/
def readable (lib : BioLib) (ndebug : Bool) (fs : FileSystem) (chunks : List String) : Bool :=
  chunks.all fun chunk =>
    match fs.fopenR chunk with
    | none => false
    | some records => records.all (wellFormed lib ndebug)

/-- The records of the chunk files of the command line, files in argument
order and records in file order. -/
def inputRecords (fs : FileSystem) (chunks : List String) : List FastaRecord :=
  chunks.flatMap fun chunk => (fs.fopenR chunk).getD []

/-- The writes one well-formed record causes. -/
def recordWrites (lib : BioLib) (r : FastaRecord) : List Write :=
  (if offsetOf lib r.fastaHeader = some 0 then [Write.header (strippedHeader lib r.fastaHeader)]
    else []) ++ [Write.body r.sequence]

/-- A file system for examples: `merged.fa` can be written; `part0.fa` holds
the first two chunks of `chr1`, `part1.fa` its third chunk, `tail.fa` a chunk
of `chr2` that does not start at offset zero; nothing else exists. -/
def demoFs : FileSystem where
  fopenW path := path == "merged.fa"
  fopenR path :=
    if path == "part0.fa" then some [⟨"chr1|0", "ACGT"⟩, ⟨"chr1|4", "GG"⟩]
    else if path == "part1.fa" then some [⟨"chr1|6", "TTA"⟩]
    else if path == "tail.fa" then some [⟨"chr2|5", "CCC"⟩]
    else none

/-- A file system for examples with records the chunker does not produce:
`negative.fa` starts with a record whose trailing attribute is the offset
`-5`, the only record of `unnumbered.fa` has a header without any offset;
`merged.fa` can be written; nothing else exists. -/
def strayFs : FileSystem where
  fopenW path := path == "merged.fa"
  fopenR path :=
    if path == "negative.fa" then some [⟨"chr1|-5", "ACGT"⟩, ⟨"chr1|4", "GG"⟩]
    else if path == "unnumbered.fa" then some [⟨"chr1", "ACGT"⟩]
    else none

end MergeChunks

end Cactus

namespace Cactus

/-! ## Part 2: the multiple aligner, as exercised by `multipleAlignerTest.c`

The test file is at hand; `multipleAligner.c`, which defines the functions
under test, is not. The oracle `checkAlignment` and the fixture are embedded
from the test source; the functions under test are modelled from the design
document, with the external pairwise aligner and the poset alignment
structure as parameters. -/

namespace MultipleAligner

/-- The fixture `littleSequences` built by `setup` (lines 21-24, 39-44). -/
def littleSequences : List String := ["AGTTT", "AGTGTG", "AC", ""]

/-- Modelled from the spec: the `AlignedPair` of section 3, whose declaration
is missing: `{score, seqX, x, seqY, y}`, position `x` of sequence `seqX`
corresponds to position `y` of sequence `seqY`. -/
structure AlignedPair where
  score : Int
  seqX : Int
  x : Int
  seqY : Int
  y : Int
deriving DecidableEq, Repr

/-- The `stIntTuple` holding an aligned pair, in the field order
`checkAlignment` reads it (lines 64-68). -/
def AlignedPair.toTuple (p : AlignedPair) : List Int :=
  [p.score, p.seqX, p.x, p.seqY, p.y]

/-- Modelled from the spec: the poset alignment (`stPosetAlignment`, the
"PosetConsistencyFilter" of section 4.3), whose implementation is missing. It
is constructed for a number of sequences, and `add seqX x seqY y` either
rejects the pair, returning false and leaving the state as it is (`none`), or
merges it, returning true (`some` of the new state). -/
structure PosetAlignment where
  State : Type
  construct : Nat → State
  add : State → Int → Int → Int → Int → Option State

/-- The checks of `checkAlignment` on the fields of one tuple (lines 63-79);
`probOne` is the constant `PAIR_ALIGNMENT_PROB_1` of `pairwiseAligner.h`.
Sequences are ASCII, so that `strlen` is the number of characters. A failing
`CuAssertTrue` ends the test, so `stList_get` is only reached with an index
already checked. -/
def checkPair (probOne : Int) (sequences : List String) (t : List Int) : Bool :=
  let score := t.getD 0 0
  let seqX := t.getD 1 0
  let x := t.getD 2 0
  let seqY := t.getD 3 0
  let y := t.getD 4 0
  t.length == 5 &&
  decide (score > 0) &&
  decide (score ≤ probOne) &&
  decide (seqX ≥ 0) &&
  decide (seqX < sequences.length) &&
  decide (x ≥ 0) &&
  decide (x < (sequences.getD seqX.toNat "").length) &&
  decide (seqY ≥ 0) &&
  decide (seqY < sequences.length) &&
  decide (y ≥ 0) &&
  decide (y < (sequences.getD seqY.toNat "").length)

/-- The loop of `checkAlignment` (lines 60-82) from a poset alignment in
state `s`: every tuple passes the field checks and is then accepted by
`stPosetAlignment_add` (line 81). -/
def checkAlignmentFrom (P : PosetAlignment) (probOne : Int) (sequences : List String) :
    P.State → List (List Int) → Bool
  | _, [] => true
  | s, t :: rest =>
    checkPair probOne sequences t &&
    match P.add s (t.getD 1 0) (t.getD 2 0) (t.getD 3 0) (t.getD 4 0) with
    | none => false
    | some s1 => checkAlignmentFrom P probOne sequences s1 rest

/-- The test oracle `checkAlignment` (lines 57-85): `true` when no assertion
fails. The poset alignment is constructed for the number of sequences. -/
def checkAlignment (P : PosetAlignment) (probOne : Int) (sequences : List String)
    (multipleAlignedPairs : List (List Int)) : Bool :=
  checkAlignmentFrom P probOne sequences (P.construct sequences.length) multipleAlignedPairs

/-- The consistency part of `checkAlignment` alone (lines 58 and 81): the
pairs are added one after the other, in list order, and each `add` must
return true. -/
def replayFrom (P : PosetAlignment) : P.State → List (List Int) → Bool
  | _, [] => true
  | s, t :: rest =>
    match P.add s (t.getD 1 0) (t.getD 2 0) (t.getD 3 0) (t.getD 4 0) with
    | none => false
    | some s1 => replayFrom P s1 rest

/-- Modelled from the spec: the external pairwise aligner of section 6,
`pairwiseAlign(seqA, seqB, params)`, whose implementation is missing, is a
parameter of this type: it returns correspondences `(score, x, y)` between
position `x` of `seqA` and position `y` of `seqB`. `Params` stands for the
opaque `PairwiseAlignmentParameters`. -/
abbrev PairwiseAligner (Params : Type) := String → String → Params → List (Int × Int × Int)

/-- Modelled from the spec: the contract of the external pairwise aligner
(sections 3 and 6), which is missing: every correspondence has a score in
`(0, PROB_ONE]` and coordinates inside the two sequences. -/
def AlignerContract {Params : Type} (probOne : Int) (pairwiseAlign : PairwiseAligner Params) :
    Prop :=
  ∀ (seqA seqB : String) (params : Params), ∀ t ∈ pairwiseAlign seqA seqB params,
    0 < t.1 ∧ t.1 ≤ probOne ∧
    0 ≤ t.2.1 ∧ t.2.1 < seqA.length ∧ 0 ≤ t.2.2 ∧ t.2.2 < seqB.length

/-- Modelled from the spec: the all-pairs schedule of section 4.1, missing
from the sources: every unordered pair of sequence indices, exactly once. -/
def allPairs (n : Nat) : List (Nat × Nat) :=
  (List.range n).flatMap fun i => (List.range' (i + 1) (n - (i + 1))).map fun j => (i, j)

/-- Modelled from the spec: the aggregator of section 4.2, missing from the
sources. Each scheduled pair `(i, j)` is handed to the pairwise aligner, the
correspondences get `seqX = i` and `seqY = j`, and one is retained when
`score / PROB_ONE >= threshold`. -/
def aggregate {Params : Type} (probOne : Int) (pairwiseAlign : PairwiseAligner Params)
    (sequences : List String) (threshold : ℚ) (params : Params) (schedule : List (Nat × Nat)) :
    List AlignedPair :=
  schedule.flatMap fun ij =>
    ((pairwiseAlign (sequences.getD ij.1 "") (sequences.getD ij.2 "") params).filter
        fun t => decide ((t.1 : ℚ) / (probOne : ℚ) ≥ threshold)).map
      fun t => { score := t.1, seqX := ij.1, x := t.2.1, seqY := ij.2, y := t.2.2 }

/-- Modelled from the spec: the greedy resolution of section 4.6, missing
from the sources: each candidate is added to the poset alignment in turn; the
accepted ones are returned, the rejected ones skipped. -/
def greedyAdd (P : PosetAlignment) : P.State → List AlignedPair → List AlignedPair
  | _, [] => []
  | s, p :: rest =>
    match P.add s p.seqX p.x p.seqY p.y with
    | none => greedyAdd P s rest
    | some s1 => p :: greedyAdd P s1 rest

/-- Modelled from the spec: the consistency resolution of section 4.6,
missing from the sources: the candidates are taken by descending score and
added greedily to a fresh poset alignment. -/
def resolve (P : PosetAlignment) (n : Nat) (candidates : List AlignedPair) : List AlignedPair :=
  greedyAdd P (P.construct n) (candidates.insertionSort fun a b => b.score ≤ a.score)

/-- Modelled from the spec: `makeAlignmentUsingAllPairs(sequences, threshold,
params)` of section 4.6, whose implementation is missing: all-pairs
schedule, aggregation under the threshold, greedy consistency resolution. -/
def makeAlignmentUsingAllPairs {Params : Type} (P : PosetAlignment) (probOne : Int)
    (pairwiseAlign : PairwiseAligner Params) (sequences : List String) (threshold : ℚ)
    (params : Params) : List AlignedPair :=
  resolve P sequences.length
    (aggregate probOne pairwiseAlign sequences threshold params (allPairs sequences.length))

/-- Modelled from the spec: the invariants of an `AlignedPair` (sections 3
and 8), stated there and not in the sources: a score in `(0, PROB_ONE]`, two
valid and distinct sequence indices, and coordinates inside the two
sequences. -/
def AlignedPair.Invariants (probOne : Int) (sequences : List String) (p : AlignedPair) : Prop :=
  0 < p.score ∧ p.score ≤ probOne ∧
  0 ≤ p.seqX ∧ p.seqX < sequences.length ∧
  0 ≤ p.seqY ∧ p.seqY < sequences.length ∧
  p.seqX ≠ p.seqY ∧
  0 ≤ p.x ∧ p.x < (sequences.getD p.seqX.toNat "").length ∧
  0 ≤ p.y ∧ p.y < (sequences.getD p.seqY.toNat "").length

/-- Modelled from the spec: the `Column` of section 3, whose declaration is
missing: the `(sequenceIndex, position)` entries judged aligned. -/
abbrev Column := List (Nat × Nat)

/-- Modelled from the spec: the loop of `makeColumns` (section 4.4), which is
missing: the singleton columns of the sequences `sequences`, the first of
which has index `seq`. -/
def columnsFrom (seq : Nat) : List String → List Column
  | [] => []
  | s :: rest => (List.range s.length).map (fun pos => [(seq, pos)]) ++ columnsFrom (seq + 1) rest

/-- Modelled from the spec: `makeColumns(sequences)` of section 4.4, whose
implementation is missing: one singleton column per character position of
every sequence. The set of columns is kept as a list. -/
def makeColumns (sequences : List String) : List Column :=
  columnsFrom 0 sequences

/-- Modelled from the spec: the sort key of section 4.1, missing from the
sources: the combined length of the two sequences of an index pair. -/
def combinedLength (seqs : List String) (ij : Nat × Nat) : Nat :=
  (seqs.getD ij.1 "").length + (seqs.getD ij.2 "").length

/-- Modelled from the spec: `getReferencePairwiseAlignments(seqs)` of section
4.1, whose implementation is missing: the star anchored at sequence `0`, its
pairs ordered by ascending combined length. Pairs of equal combined length
keep their index order, a policy the design document leaves open. -/
def getReferencePairwiseAlignments (seqs : List String) : List (Nat × Nat) :=
  ((List.range' 1 (seqs.length - 1)).map fun j => (0, j)).insertionSort
    fun a b => combinedLength seqs a ≤ combinedLength seqs b

/-- Modelled from the spec: the pairs `getDistanceMatrix` visits in a column
(section 4.5), missing from the sources: every unordered pair of entries. -/
def entryPairs : List (Nat × Nat) → List ((Nat × Nat) × (Nat × Nat))
  | [] => []
  | e :: rest => rest.map (fun e2 => (e, e2)) ++ entryPairs rest

/-- Modelled from the spec: the character at an aligned position (section
4.5), missing from the sources; a blank outside the sequences. -/
def characterAt (seqs : List String) (e : Nat × Nat) : Char :=
  (seqs.getD e.1 "").toList.getD e.2 ' '

/-- Modelled from the spec: the distance matrix of section 3 is keyed by
unordered pairs of sequence indices; its layout is missing from the sources.
In the table of counts, declared `int64_t *` (line 135), the cell of the
unordered pair of `seq1` and `seq2` holds the match count at this place and
the mismatch count right after it. -/
def cellIndex (seq1 seq2 seqNo : Nat) : Nat :=
  (min seq1 seq2 * seqNo + max seq1 seq2) * 2

/-- Modelled from the spec: one pair observation of section 4.5, missing from
the sources: the match or the mismatch count of the pair of sequences goes up
by one, as the two characters are equal or not. -/
def recordObservation (seqs : List String) (counts : List Int)
    (obs : (Nat × Nat) × (Nat × Nat)) : List Int :=
  let cell := cellIndex obs.1.1 obs.2.1 seqs.length
  let place := if characterAt seqs obs.1 = characterAt seqs obs.2 then cell else cell + 1
  counts.set place (counts.getD place 0 + 1)

/-- Modelled from the spec: `getDistanceMatrix(columns, sequences,
maxPairsToConsider)` of section 4.5, whose implementation is missing: for
every column with two members or more and every unordered pair of its
entries, one observation is recorded, until `maxPairsToConsider` observations
have been recorded. -/
def getDistanceMatrix (columns : List Column) (seqs : List String) (maxPairsToConsider : Int) :
    List Int :=
  (((columns.filter fun c => decide (2 ≤ c.length)).flatMap entryPairs).take
      maxPairsToConsider.toNat).foldl
    (recordObservation seqs) (List.replicate (seqs.length * seqs.length * 2) 0)

/-- Modelled from the spec: `subsPerSite(i, j, counts, seqCount)` of section
4.5, whose implementation is missing: `mismatches / (matches + mismatches)`
for the pair, `0.0` when the pair was never observed. The quotient is kept
exact; the C function returns it as a `double`. -/
def subsPerSite (seq1 seq2 : Nat) (distanceCounts : List Int) (seqNo : Nat) : ℚ :=
  let matchCount := distanceCounts.getD (cellIndex seq1 seq2 seqNo) 0
  let mismatchCount := distanceCounts.getD (cellIndex seq1 seq2 seqNo + 1) 0
  if matchCount + mismatchCount = 0 then 0
  else (mismatchCount : ℚ) / ((matchCount + mismatchCount : Int) : ℚ)

/-- The columns of the fixture when position `k` of every sequence that has
one is put in column `k`, for examples. -/
def littleColumns : List Column :=
  [[(0, 0), (1, 0), (2, 0)], [(0, 1), (1, 1), (2, 1)], [(0, 2), (1, 2)], [(0, 3), (1, 3)],
    [(0, 4), (1, 4)], [(1, 5)]]

/-- Modelled from the spec: what an aligned pair tells about the returned
list, whatever the pairwise aligner does (sections 4.1, 4.2 and 4.6): its
two sequence indices are valid and distinct, and its score and coordinates
are a correspondence the aligner returned for these two sequences. -/
def AlignedPair.FromAligner {Params : Type} (pairwiseAlign : PairwiseAligner Params)
    (sequences : List String) (params : Params) (p : AlignedPair) : Prop :=
  0 ≤ p.seqX ∧ p.seqX < sequences.length ∧
  0 ≤ p.seqY ∧ p.seqY < sequences.length ∧
  p.seqX ≠ p.seqY ∧
  (p.score, p.x, p.y) ∈
    pairwiseAlign (sequences.getD p.seqX.toNat "") (sequences.getD p.seqY.toNat "") params

/-- Modelled from the spec: a position of a sequence (section 3), the index
of the sequence and the coordinate. -/
abbrev Position := Int × Int

/-- Modelled from the spec: the order a set of aligned pairs imposes (section
4.3), whose implementation is missing. The two positions of a pair are in one
column, so each comes no later than the other; the pairs are returned in both
directions. -/
def columnEdges (pairs : List (Position × Position)) : List (Position × Position) :=
  pairs ++ pairs.map fun e => (e.2, e.1)

/-- Modelled from the spec: the positions that take part in the pairs. -/
def positions (pairs : List (Position × Position)) : List Position :=
  (pairs.flatMap fun e => [e.1, e.2]).dedup

/-- Modelled from the spec: within a sequence the columns increase with the
position (section 4.3), so of two positions of one sequence the one with the
smaller coordinate comes strictly before the other. -/
def sequenceEdges (pairs : List (Position × Position)) : List (Position × Position) :=
  (positions pairs).flatMap fun a =>
    ((positions pairs).filter fun b => decide (a.1 = b.1 ∧ a.2 < b.2)).map fun b => (a, b)

/-- Modelled from the spec: one round of the search for the positions that,
in the order of section 4.3, come no earlier than the ones already found. -/
def expand (edges : List (Position × Position)) (found : List Position) : List Position :=
  (found ++ (edges.filter fun e => decide (e.1 ∈ found ∧ e.2 ∉ found)).map Prod.snd).dedup

/-- Modelled from the spec: the positions that, in the order of section 4.3,
come no earlier than `a`; as many rounds as there are positions reach them
all. -/
def noEarlierThan (pairs : List (Position × Position)) (a : Position) : List Position :=
  (expand (columnEdges pairs ++ sequenceEdges pairs))^[(positions pairs).length] [a]

/-- Modelled from the spec: consistency of a set of aligned pairs (section
4.3): no position comes strictly before a position that comes no later than
itself. A position that would be in two columns, and two positions of one
sequence in one column, are such cycles. -/
def consistent (pairs : List (Position × Position)) : Bool :=
  (sequenceEdges pairs).all fun e => decide (e.1 ∉ noEarlierThan pairs e.2)

/-- Modelled from the spec: a poset alignment that follows section 4.3 by
exhaustive search, for examples: it keeps the accepted pairs, and accepts a
pair when the accepted pairs stay consistent with it. -/
def searchPoset : PosetAlignment where
  State := List (Position × Position)
  construct _ := []
  add s seqX x seqY y :=
    if consistent (s ++ [((seqX, x), (seqY, y))]) then some (s ++ [((seqX, x), (seqY, y))])
    else none

end MultipleAligner

end Cactus

/-! ## Theorems -/

namespace Cactus

namespace MergeChunks

theorem wellFormed_iff (lib : BioLib) (ndebug : Bool) (r : FastaRecord) :
    wellFormed lib ndebug r = true ↔
      ∃ offset, offsetOf lib r.fastaHeader = some offset ∧ (ndebug = true ∨ 0 ≤ offset) := by
  unfold wellFormed
  cases h : offsetOf lib r.fastaHeader with
  | none => simp
  | some offset => simp

theorem readFastaCallback_wellFormed (lib : BioLib) (ndebug : Bool) (out : List Write)
    (r : FastaRecord) (length : Int) (h : wellFormed lib ndebug r = true) :
    readFastaCallback lib ndebug out r.fastaHeader r.sequence length
      = .ok (out ++ recordWrites lib r) := by
  obtain ⟨offset, hoff, hsign⟩ := (wellFormed_iff lib ndebug r).1 h
  unfold offsetOf at hoff
  unfold readFastaCallback recordWrites offsetOf strippedHeader
  cases hl : (lib.fastaDecodeHeader r.fastaHeader).getLast? with
  | none => simp [hl] at hoff
  | some last =>
    simp only [hl] at hoff
    simp only [hl, hoff]
    have hguard : ¬ (offset < 0 ∧ ndebug = false) := by
      rintro ⟨h1, h2⟩
      rcases hsign with h3 | h3
      · simp [h2] at h3
      · omega
    by_cases h0 : offset = 0
    · simp [h0]
    · simp [h0, hguard]

theorem fastaReadToFunction_wellFormed (lib : BioLib) (ndebug : Bool) (records : List FastaRecord)
    (out : List Write) (h : records.all (wellFormed lib ndebug) = true) :
    fastaReadToFunction (readFastaCallback lib ndebug) records out
      = (out ++ records.flatMap (recordWrites lib), none) := by
  induction records generalizing out with
  | nil => simp [fastaReadToFunction]
  | cons r rest ih =>
    simp only [List.all_cons, Bool.and_eq_true] at h
    simp only [fastaReadToFunction, readFastaCallback_wellFormed lib ndebug out r _ h.1]
    rw [ih _ h.2]
    simp [List.flatMap_cons, List.append_assoc]

theorem mergeChunks_readable (lib : BioLib) (ndebug : Bool) (fs : FileSystem)
    (chunks : List String) (opened : List (String × String)) (out : List Write)
    (h : readable lib ndebug fs chunks = true) :
    mergeChunks lib ndebug fs chunks opened out =
      { status := .returned 0, stderr := [],
        opened := opened ++ chunks.map (fun chunk => (chunk, "r")),
        outputFile := some (out ++ (inputRecords fs chunks).flatMap (recordWrites lib)) } := by
  induction chunks generalizing opened out with
  | nil => simp [mergeChunks, inputRecords]
  | cons chunk rest ih =>
    unfold readable at h
    simp only [List.all_cons, Bool.and_eq_true] at h
    obtain ⟨h1, h2⟩ := h
    cases hr : fs.fopenR chunk with
    | none => simp [hr] at h1
    | some records =>
      simp only [hr] at h1
      have ih1 := ih (opened ++ [(chunk, "r")]) (out ++ records.flatMap (recordWrites lib)) h2
      simp only [mergeChunks, hr, fastaReadToFunction_wellFormed lib ndebug records out h1]
      rw [ih1]
      simp [inputRecords, List.flatMap_cons, hr, List.flatMap_append, List.append_assoc]

theorem main_readable (lib : BioLib) (ndebug : Bool) (fs : FileSystem) (argv0 output : String)
    (chunks : List String) (hout : fs.fopenW output = true)
    (hin : readable lib ndebug fs chunks = true) :
    main lib ndebug fs argv0 (output :: chunks) =
      { status := .returned 0, stderr := [],
        opened := (output, "w+") :: chunks.map (fun chunk => (chunk, "r")),
        outputFile := some ((inputRecords fs chunks).flatMap (recordWrites lib)) } := by
  simp [main, hout, mergeChunks_readable lib ndebug fs chunks _ _ hin]

theorem readFastaCallback_ok_wellFormed (lib : BioLib) (ndebug : Bool) (out out1 : List Write)
    (r : FastaRecord) (length : Int)
    (h : readFastaCallback lib ndebug out r.fastaHeader r.sequence length = .ok out1) :
    wellFormed lib ndebug r = true := by
  unfold readFastaCallback at h
  unfold wellFormed offsetOf
  cases hl : (lib.fastaDecodeHeader r.fastaHeader).getLast? with
  | none =>
    simp only [hl] at h
    cases ndebug <;> simp at h
  | some last =>
    simp only [hl] at h
    cases hs : lib.sscanfInt64 last with
    | none =>
      simp only [hs] at h
      cases ndebug <;> simp at h
    | some offset =>
      simp only [hs] at h
      cases ndebug with
      | true => simp [hs]
      | false =>
        by_cases hneg : offset < 0
        · simp [hneg] at h
        · simpa [hs] using hneg

theorem fastaReadToFunction_none_wellFormed (lib : BioLib) (ndebug : Bool)
    (records : List FastaRecord) (out out1 : List Write)
    (h : fastaReadToFunction (readFastaCallback lib ndebug) records out = (out1, none)) :
    records.all (wellFormed lib ndebug) = true := by
  induction records generalizing out with
  | nil => simp
  | cons r rest ih =>
    simp only [fastaReadToFunction] at h
    cases hc : readFastaCallback lib ndebug out r.fastaHeader r.sequence r.sequence.length with
    | error f => simp [hc] at h
    | ok out2 =>
      simp only [hc] at h
      simp only [List.all_cons, Bool.and_eq_true]
      exact ⟨readFastaCallback_ok_wellFormed lib ndebug out out2 r _ hc, ih out2 h⟩

theorem mergeChunks_returned (lib : BioLib) (ndebug : Bool) (fs : FileSystem)
    (chunks : List String) (opened : List (String × String)) (out : List Write) (code : Int)
    (h : (mergeChunks lib ndebug fs chunks opened out).status = .returned code) :
    code = 0 ∧ readable lib ndebug fs chunks = true := by
  induction chunks generalizing opened out with
  | nil =>
    simp only [mergeChunks, Termination.returned.injEq] at h
    exact ⟨h.symm, by simp [readable]⟩
  | cons chunk rest ih =>
    simp only [mergeChunks] at h
    cases hr : fs.fopenR chunk with
    | none => simp [hr] at h
    | some records =>
      simp only [hr] at h
      cases hf : fastaReadToFunction (readFastaCallback lib ndebug) records out with
      | mk out1 fault =>
        cases fault with
        | some f =>
          cases f <;> simp [hf] at h
        | none =>
          simp only [hf] at h
          obtain ⟨h0, hrest⟩ := ih _ _ h
          refine ⟨h0, ?_⟩
          unfold readable at hrest ⊢
          simp only [List.all_cons, Bool.and_eq_true, hr]
          exact ⟨fastaReadToFunction_none_wellFormed lib ndebug records out out1 hf, hrest⟩

theorem filter_isBody_recordWrites (lib : BioLib) (records : List FastaRecord) :
    (records.flatMap (recordWrites lib)).filter Write.isBody
      = records.map (fun r => Write.body r.sequence) := by
  induction records with
  | nil => simp
  | cons r rest ih =>
    rw [List.flatMap_cons, List.filter_append, ih]
    unfold recordWrites
    by_cases h0 : offsetOf lib r.fastaHeader = some 0 <;> simp [h0, Write.isBody]

theorem contents_bodies (records : List FastaRecord) :
    contents (records.map (fun r => Write.body r.sequence))
      = String.join (records.map (fun r => r.sequence ++ "\n")) := by
  simp [contents, Write.render, Function.comp_def]

/-- C6: for a record whose header ends in an attribute that `sscanf` reads as
a non-negative offset, `readFastaCallback` returns, and it writes a header
line if and only if the offset is zero. The header line is `>` followed by
the encoding of the attributes before the last one, kept as they are and in
their order, and it is written just before the sequence line of the record;
when the offset is not zero the sequence line is all that is written. -/
theorem readFastaCallback_header_iff_offset_zero (lib : BioLib) (ndebug : Bool)
    (out : List Write) (fastaHeader sequence : String) (length : Int) (last : String)
    (offset : Int) (hlast : (lib.fastaDecodeHeader fastaHeader).getLast? = some last)
    (hscan : lib.sscanfInt64 last = some offset) (hnonneg : 0 ≤ offset) :
    ∃ kept written,
      lib.fastaDecodeHeader fastaHeader = kept ++ [last] ∧
      readFastaCallback lib ndebug out fastaHeader sequence length = .ok (out ++ written) ∧
      ((∃ w ∈ written, w.isHeader = true) ↔ offset = 0) ∧
      (offset = 0 →
        written = [Write.header (lib.fastaEncodeHeader kept), Write.body sequence] ∧
        written.map Write.render = [">" ++ lib.fastaEncodeHeader kept ++ "\n", sequence ++ "\n"]) ∧
      (offset ≠ 0 → written = [Write.body sequence]) := by
  obtain ⟨kept, hkept⟩ := List.getLast?_eq_some_iff.1 hlast
  have hwf : wellFormed lib ndebug ⟨fastaHeader, sequence⟩ = true :=
    (wellFormed_iff lib ndebug _).2 ⟨offset, by simp [offsetOf, hlast, hscan], Or.inr hnonneg⟩
  have hrun := readFastaCallback_wellFormed lib ndebug out ⟨fastaHeader, sequence⟩ length hwf
  have hoff : offsetOf lib fastaHeader = some offset := by simp [offsetOf, hlast, hscan]
  have hstrip : strippedHeader lib fastaHeader = lib.fastaEncodeHeader kept := by
    simp [strippedHeader, hkept]
  refine ⟨kept, recordWrites lib ⟨fastaHeader, sequence⟩, hkept, hrun, ?_, ?_, ?_⟩
  · by_cases h0 : offset = 0
    · simp [recordWrites, hoff, h0, Write.isHeader]
    · simp [recordWrites, hoff, h0, Write.isHeader]
  · intro h0
    simp [recordWrites, hoff, h0, hstrip, Write.render]
  · intro h0
    simp [recordWrites, hoff, h0]

/-- Witness for C6: the first chunk of `chr1` (offset `0`) gets its header
line, written before its sequence line; the chunk at offset `4` gets none. -/
theorem readFastaCallback_header_iff_offset_zero_witness :
    ((refLib.fastaDecodeHeader "chr1|0").getLast? = some "0" ∧
      refLib.sscanfInt64 "0" = some 0 ∧ (0 : Int) ≤ 0) ∧
    (∃ kept written,
      refLib.fastaDecodeHeader "chr1|0" = kept ++ ["0"] ∧
      readFastaCallback refLib false [] "chr1|0" "ACGT" 4 = .ok ([] ++ written) ∧
      ((∃ w ∈ written, w.isHeader = true) ↔ (0 : Int) = 0) ∧
      ((0 : Int) = 0 →
        written = [Write.header (refLib.fastaEncodeHeader kept), Write.body "ACGT"] ∧
        written.map Write.render = [">" ++ refLib.fastaEncodeHeader kept ++ "\n", "ACGT" ++ "\n"]) ∧
      ((0 : Int) ≠ 0 → written = [Write.body "ACGT"])) ∧
    readFastaCallback refLib false [] "chr1|0" "ACGT" 4
      = .ok [Write.header "chr1", Write.body "ACGT"] ∧
    readFastaCallback refLib false [] "chr1|4" "GG" 2 = .ok [Write.body "GG"] :=
  ⟨⟨by decide, by decide, by decide⟩,
    readFastaCallback_header_iff_offset_zero refLib false [] "chr1|0" "ACGT" 4 "0" 0
      (by decide) (by decide) (by decide),
    rfl, rfl⟩

/-- C8, as stated, fails: not every record contributes its sequence, whatever
its offset. In a build with assertions, `negative.fa`, whose first record has
the trailing offset `-5`, fails `assert(offset >= 0)` in the callback before
any `fprintf`: the run is aborted and neither `ACGT` nor the sequence `GG` of
the next record is written. The record of `unnumbered.fa`, whose header has
no offset, fails `assert(i == 1)` the same way. With `NDEBUG` the negative
offset goes through and both sequences are written. -/
theorem body_not_written_when_assertion_fails :
    inputRecords strayFs ["negative.fa"] = [⟨"chr1|-5", "ACGT"⟩, ⟨"chr1|4", "GG"⟩] ∧
    offsetOf refLib "chr1|-5" = some (-5) ∧
    main refLib false strayFs "mergeChunks" ["merged.fa", "negative.fa"]
      = { status := .aborted, stderr := [refLib.assertDiagnostic "offset >= 0"],
          opened := [("merged.fa", "w+"), ("negative.fa", "r")], outputFile := some [] } ∧
    inputRecords strayFs ["unnumbered.fa"] = [⟨"chr1", "ACGT"⟩] ∧
    offsetOf refLib "chr1" = none ∧
    main refLib false strayFs "mergeChunks" ["merged.fa", "unnumbered.fa"]
      = { status := .aborted, stderr := [refLib.assertDiagnostic "i == 1"],
          opened := [("merged.fa", "w+"), ("unnumbered.fa", "r")], outputFile := some [] } ∧
    main refLib true strayFs "mergeChunks" ["merged.fa", "negative.fa"]
      = { status := .returned 0, stderr := [],
          opened := [("merged.fa", "w+"), ("negative.fa", "r")],
          outputFile := some [Write.body "ACGT", Write.body "GG"] } := by
  decide

/-- C8, amended: when the output file opens, every chunk file opens and every
record has a trailing attribute that reads as an offset, not negative unless
the assertions are compiled out, the run returns `0`, and the writes of the
sequence call site are, in order, one per input record (files in argument
order, records in file order), each the sequence of the record followed by a
newline, whether the offset of the record is zero or not; the output without
its header lines is the concatenation of these lines. -/
theorem bodies_copied_in_input_order (lib : BioLib) (ndebug : Bool) (fs : FileSystem)
    (argv0 output : String) (chunks : List String)
    (hout : fs.fopenW output = true) (hin : readable lib ndebug fs chunks = true) :
    ∃ out,
      (main lib ndebug fs argv0 (output :: chunks)).status = .returned 0 ∧
      (main lib ndebug fs argv0 (output :: chunks)).outputFile = some out ∧
      out.filter Write.isBody = (inputRecords fs chunks).map (fun r => Write.body r.sequence) ∧
      contents (out.filter (fun w => !w.isHeader))
        = String.join ((inputRecords fs chunks).map (fun r => r.sequence ++ "\n")) := by
  refine ⟨(inputRecords fs chunks).flatMap (recordWrites lib), ?_, ?_, ?_, ?_⟩
  · rw [main_readable lib ndebug fs argv0 output chunks hout hin]
  · rw [main_readable lib ndebug fs argv0 output chunks hout hin]
  · exact filter_isBody_recordWrites lib _
  · have hsame : (fun w : Write => !w.isHeader) = Write.isBody := by
      funext w
      cases w <;> rfl
    rw [hsame, filter_isBody_recordWrites lib _, contents_bodies]

/-- Witness for the amended C8: two chunk files, three records, offsets `0`,
`4`, `6`. -/
theorem bodies_copied_in_input_order_witness :
    (demoFs.fopenW "merged.fa" = true ∧
      readable refLib false demoFs ["part0.fa", "part1.fa"] = true) ∧
    (∃ out,
      (main refLib false demoFs "mergeChunks" ["merged.fa", "part0.fa", "part1.fa"]).status
        = .returned 0 ∧
      (main refLib false demoFs "mergeChunks" ["merged.fa", "part0.fa", "part1.fa"]).outputFile
        = some out ∧
      out.filter Write.isBody
        = (inputRecords demoFs ["part0.fa", "part1.fa"]).map (fun r => Write.body r.sequence) ∧
      contents (out.filter (fun w => !w.isHeader))
        = String.join ((inputRecords demoFs ["part0.fa", "part1.fa"]).map
            (fun r => r.sequence ++ "\n"))) ∧
    (inputRecords demoFs ["part0.fa", "part1.fa"]).map (fun r => Write.body r.sequence)
      = [Write.body "ACGT", Write.body "GG", Write.body "TTA"] :=
  ⟨⟨by decide, by decide⟩,
    bodies_copied_in_input_order refLib false demoFs "mergeChunks" "merged.fa"
      ["part0.fa", "part1.fa"] (by decide) (by decide),
    by decide⟩

/-- C9: `main` returns `-1` when `argc < 2`, without opening or writing any
file; it returns `-1` when the output file cannot be opened for writing,
having made no other `fopen` call, so that no chunk file is read; in every
other run, if all chunk files are read (each opens and holds well-formed
records) it returns `0`, and it returns nothing but `0`. -/
theorem main_return_code (lib : BioLib) (ndebug : Bool) (fs : FileSystem) (argv0 : String) :
    (∀ args : List String, args.length + 1 < 2 →
      (main lib ndebug fs argv0 args).status = .returned (-1) ∧
      (main lib ndebug fs argv0 args).opened = [] ∧
      (main lib ndebug fs argv0 args).outputFile = none) ∧
    (∀ (output : String) (chunks : List String), fs.fopenW output = false →
      (main lib ndebug fs argv0 (output :: chunks)).status = .returned (-1) ∧
      (main lib ndebug fs argv0 (output :: chunks)).opened = [(output, "w+")] ∧
      (main lib ndebug fs argv0 (output :: chunks)).outputFile = none) ∧
    (∀ (output : String) (chunks : List String), fs.fopenW output = true →
      (readable lib ndebug fs chunks = true →
        (main lib ndebug fs argv0 (output :: chunks)).status = .returned 0 ∧
        (main lib ndebug fs argv0 (output :: chunks)).opened
          = (output, "w+") :: chunks.map (fun chunk => (chunk, "r"))) ∧
      (∀ code : Int, (main lib ndebug fs argv0 (output :: chunks)).status = .returned code →
        code = 0 ∧ readable lib ndebug fs chunks = true)) := by
  refine ⟨?_, ?_, ?_⟩
  · intro args hargs
    cases args with
    | nil => simp [main]
    | cons a rest =>
      simp only [List.length_cons] at hargs
      omega
  · intro output chunks hout
    simp [main, hout]
  · intro output chunks hout
    refine ⟨?_, ?_⟩
    · intro hin
      rw [main_readable lib ndebug fs argv0 output chunks hout hin]
      exact ⟨rfl, rfl⟩
    · intro code hcode
      simp only [main, hout] at hcode
      exact mergeChunks_returned lib ndebug fs chunks _ _ code (by simpa using hcode)

/-- Witness for C9: no argument; an output file that cannot be opened; a run
over two chunk files that opens and reads them all. -/
theorem main_return_code_witness :
    ((main refLib false demoFs "mergeChunks" []).status = .returned (-1) ∧
      (main refLib false demoFs "mergeChunks" []).opened = [] ∧
      (main refLib false demoFs "mergeChunks" []).outputFile = none) ∧
    ((main refLib false demoFs "mergeChunks" ["locked.fa", "part0.fa"]).status = .returned (-1) ∧
      (main refLib false demoFs "mergeChunks" ["locked.fa", "part0.fa"]).opened
        = [("locked.fa", "w+")] ∧
      (main refLib false demoFs "mergeChunks" ["locked.fa", "part0.fa"]).outputFile = none) ∧
    ((main refLib false demoFs "mergeChunks" ["merged.fa", "part0.fa", "part1.fa"]).status
        = .returned 0 ∧
      (main refLib false demoFs "mergeChunks" ["merged.fa", "part0.fa", "part1.fa"]).opened
        = [("merged.fa", "w+"), ("part0.fa", "r"), ("part1.fa", "r")]) ∧
    ((0 : Int) = 0 ∧ readable refLib false demoFs ["part0.fa", "part1.fa"] = true) :=
  ⟨(main_return_code refLib false demoFs "mergeChunks").1 [] (by decide),
    (main_return_code refLib false demoFs "mergeChunks").2.1 "locked.fa" ["part0.fa"] (by decide),
    ((main_return_code refLib false demoFs "mergeChunks").2.2 "merged.fa"
      ["part0.fa", "part1.fa"] (by decide)).1 (by decide),
    ((main_return_code refLib false demoFs "mergeChunks").2.2 "merged.fa"
      ["part0.fa", "part1.fa"] (by decide)).2 0 (by decide)⟩

/-- C10, at the failing input: the output file opens and the chunk file
`nowhere.fa` does not. `main` hands the `NULL` stream to the FASTA reader:
nothing is written to standard error and no `return` of `main` is reached,
with or without `NDEBUG`. When it is the output file that does not open, the
error is reported and `-1` returned. -/
theorem main_missing_chunk_unreported :
    main refLib false demoFs "mergeChunks" ["merged.fa", "nowhere.fa"]
        = { status := .undefined, stderr := [],
            opened := [("merged.fa", "w+"), ("nowhere.fa", "r")], outputFile := some [] } ∧
    main refLib true demoFs "mergeChunks" ["merged.fa", "nowhere.fa"]
        = { status := .undefined, stderr := [],
            opened := [("merged.fa", "w+"), ("nowhere.fa", "r")], outputFile := some [] } ∧
    main refLib false demoFs "mergeChunks" ["locked.fa", "part0.fa"]
        = { status := .returned (-1), stderr := ["ERROR: cannot open locked.fa for writing\n"],
            opened := [("locked.fa", "w+")], outputFile := none } := by
  decide

end MergeChunks

end Cactus

namespace Cactus

namespace MultipleAligner

theorem columnsFrom_length (seq : Nat) (sequences : List String) :
    (columnsFrom seq sequences).length = (sequences.map String.length).sum := by
  induction sequences generalizing seq with
  | nil => simp [columnsFrom]
  | cons s rest ih => simp [columnsFrom, ih]

theorem mem_columnsFrom (seq : Nat) (sequences : List String) (c : Column) :
    c ∈ columnsFrom seq sequences ↔
      ∃ i pos, i < sequences.length ∧ pos < (sequences.getD i "").length ∧
        c = [(seq + i, pos)] := by
  induction sequences generalizing seq with
  | nil => simp [columnsFrom]
  | cons s rest ih =>
    simp only [columnsFrom, List.mem_append, List.mem_map, List.mem_range, ih]
    constructor
    · rintro (⟨pos, hpos, rfl⟩ | ⟨i, pos, hi, hpos, rfl⟩)
      · exact ⟨0, pos, by simp, by simpa using hpos, by simp⟩
      · refine ⟨i + 1, pos, by simpa using hi, by simpa using hpos, ?_⟩
        simp [Nat.add_comm, Nat.add_left_comm]
    · rintro ⟨i, pos, hi, hpos, rfl⟩
      cases i with
      | zero => exact Or.inl ⟨pos, by simpa using hpos, by simp⟩
      | succ k =>
        refine Or.inr ⟨k, pos, by simpa using hi, by simpa using hpos, ?_⟩
        simp [Nat.add_comm, Nat.add_left_comm]

theorem columnsFrom_nodup (seq : Nat) (sequences : List String) :
    (columnsFrom seq sequences).Nodup := by
  induction sequences generalizing seq with
  | nil => simp [columnsFrom]
  | cons s rest ih =>
    simp only [columnsFrom]
    refine List.Nodup.append ?_ (ih (seq + 1)) ?_
    · refine List.Nodup.map ?_ (List.nodup_range _)
      intro a b hab
      simpa using hab
    · intro c hc1 hc2
      obtain ⟨pos, _, rfl⟩ := List.mem_map.1 hc1
      obtain ⟨i, pos2, _, _, heq⟩ := (mem_columnsFrom (seq + 1) rest _).1 hc2
      simp only [List.cons.injEq, Prod.mk.injEq, and_true] at heq
      omega

/-- C3: for every list of sequences, empty sequences and the empty list
included, `makeColumns` returns exactly the singleton columns `[(i, pos)]` of
the character positions `pos` of the sequences `i`, each once, so that the
number of columns is the sum of the lengths of the sequences; on `"AGTTT"`,
`"AGTGTG"`, `"AC"`, `""` it returns 13 columns. -/
theorem makeColumns_one_column_per_position (sequences : List String) :
    (makeColumns sequences).length = (sequences.map String.length).sum ∧
    (makeColumns sequences).Nodup ∧
    (∀ c : Column, c ∈ makeColumns sequences ↔
      ∃ i pos, i < sequences.length ∧ pos < (sequences.getD i "").length ∧ c = [(i, pos)]) ∧
    makeColumns [] = [] ∧
    littleSequences.map String.length = [5, 6, 2, 0] ∧
    (makeColumns littleSequences).length = 13 := by
  refine ⟨columnsFrom_length 0 sequences, columnsFrom_nodup 0 sequences, ?_, rfl, by decide,
    by decide⟩
  intro c
  simpa using mem_columnsFrom 0 sequences c

theorem cellIndex_comm (seq1 seq2 seqNo : Nat) :
    cellIndex seq1 seq2 seqNo = cellIndex seq2 seq1 seqNo := by
  simp [cellIndex, Nat.min_comm seq1 seq2, Nat.max_comm seq1 seq2]

/-- C4: `subsPerSite` is symmetric in its two sequence arguments, exactly:
for the table of counts `getDistanceMatrix` builds from any columns, any
sequences and any cap, for every `seqNo` and all indices `i`, `j` (below
`seqNo` or not), `subsPerSite(i, j, counts, seqNo)` and
`subsPerSite(j, i, counts, seqNo)` are the same number; and so for every
other table of counts. -/
theorem subsPerSite_symmetric (columns : List Column) (seqs : List String)
    (maxPairsToConsider : Int) (seqNo i j : Nat) :
    subsPerSite i j (getDistanceMatrix columns seqs maxPairsToConsider) seqNo
        = subsPerSite j i (getDistanceMatrix columns seqs maxPairsToConsider) seqNo ∧
    ∀ distanceCounts : List Int,
      subsPerSite i j distanceCounts seqNo = subsPerSite j i distanceCounts seqNo := by
  have h : ∀ distanceCounts : List Int,
      subsPerSite i j distanceCounts seqNo = subsPerSite j i distanceCounts seqNo := by
    intro distanceCounts
    simp only [subsPerSite, cellIndex_comm i j seqNo]
  exact ⟨h _, h⟩

theorem combinedLength_total (seqs : List String) :
    IsTotal (Nat × Nat) (fun a b => combinedLength seqs a ≤ combinedLength seqs b) :=
  ⟨fun a b => Nat.le_total (combinedLength seqs a) (combinedLength seqs b)⟩

theorem combinedLength_trans (seqs : List String) :
    IsTrans (Nat × Nat) (fun a b => combinedLength seqs a ≤ combinedLength seqs b) :=
  ⟨fun _ _ _ hab hbc => Nat.le_trans hab hbc⟩

/-- C5: for every list of `N` sequences, `getReferencePairwiseAlignments`
returns `N - 1` index pairs (none when `N` is `0` or `1`), each of the form
`(0, j)`, the `j` being the indices `1`, ..., `N - 1`, each exactly once, in
ascending order of the combined length of sequence `0` and sequence `j`; on
`"AGTTT"`, `"AGTGTG"`, `"AC"`, `""` it returns `(0,3)`, `(0,2)`, `(0,1)`. -/
theorem getReferencePairwiseAlignments_star_by_length (seqs : List String) :
    (getReferencePairwiseAlignments seqs).length = seqs.length - 1 ∧
    (∀ p ∈ getReferencePairwiseAlignments seqs, p.1 = 0) ∧
    ((getReferencePairwiseAlignments seqs).map Prod.snd).Perm (List.range' 1 (seqs.length - 1)) ∧
    (getReferencePairwiseAlignments seqs).Pairwise
      (fun a b => (seqs.getD 0 "").length + (seqs.getD a.2 "").length
        ≤ (seqs.getD 0 "").length + (seqs.getD b.2 "").length) ∧
    getReferencePairwiseAlignments littleSequences = [(0, 3), (0, 2), (0, 1)] := by
  have hperm := List.perm_insertionSort
    (fun a b : Nat × Nat => combinedLength seqs a ≤ combinedLength seqs b)
    ((List.range' 1 (seqs.length - 1)).map fun j => (0, j))
  have hfst : ∀ p ∈ getReferencePairwiseAlignments seqs, p.1 = 0 := by
    intro p hp
    have hp1 := hperm.subset hp
    obtain ⟨j, _, rfl⟩ := List.mem_map.1 hp1
    rfl
  refine ⟨?_, hfst, ?_, ?_, by decide⟩
  · have hlen := hperm.length_eq
    simp only [List.length_map, List.length_range'] at hlen
    exact hlen
  · have hmap := hperm.map Prod.snd
    simpa [getReferencePairwiseAlignments, Function.comp_def] using hmap
  · have _hT := combinedLength_total seqs
    have _hR := combinedLength_trans seqs
    have hsorted := List.sorted_insertionSort
      (fun a b : Nat × Nat => combinedLength seqs a ≤ combinedLength seqs b)
      ((List.range' 1 (seqs.length - 1)).map fun j => (0, j))
    have hpw : (getReferencePairwiseAlignments seqs).Pairwise
        (fun a b => combinedLength seqs a ≤ combinedLength seqs b) := hsorted
    refine List.Pairwise.imp_of_mem ?_ hpw
    intro a b ha hb hab
    have ha0 := hfst a ha
    have hb0 := hfst b hb
    simpa [combinedLength, ha0, hb0] using hab

theorem replayFrom_greedyAdd (P : PosetAlignment) (s : P.State) (candidates : List AlignedPair) :
    replayFrom P s ((greedyAdd P s candidates).map AlignedPair.toTuple) = true := by
  induction candidates generalizing s with
  | nil => simp [greedyAdd, replayFrom]
  | cons p rest ih =>
    cases h : P.add s p.seqX p.x p.seqY p.y with
    | none =>
      simp only [greedyAdd, h]
      exact ih s
    | some s1 =>
      simp only [greedyAdd, h, List.map_cons, replayFrom, AlignedPair.toTuple, List.getD_cons_zero,
        List.getD_cons_succ]
      exact ih s1

theorem mem_greedyAdd (P : PosetAlignment) (s : P.State) (candidates : List AlignedPair)
    (p : AlignedPair) (h : p ∈ greedyAdd P s candidates) : p ∈ candidates := by
  induction candidates generalizing s with
  | nil => simp [greedyAdd] at h
  | cons q rest ih =>
    simp only [greedyAdd] at h
    cases hadd : P.add s q.seqX q.x q.seqY q.y with
    | none =>
      simp only [hadd] at h
      exact List.mem_cons_of_mem _ (ih s h)
    | some s1 =>
      simp only [hadd, List.mem_cons] at h
      rcases h with rfl | h
      · exact List.mem_cons_self _ _
      · exact List.mem_cons_of_mem _ (ih s1 h)

theorem mem_resolve (P : PosetAlignment) (n : Nat) (candidates : List AlignedPair)
    (p : AlignedPair) (h : p ∈ resolve P n candidates) : p ∈ candidates :=
  (List.perm_insertionSort _ candidates).subset (mem_greedyAdd P _ _ p h)

theorem mem_allPairs (n : Nat) (ij : Nat × Nat) (h : ij ∈ allPairs n) :
    ij.1 < ij.2 ∧ ij.2 < n := by
  simp only [allPairs, List.mem_flatMap, List.mem_range, List.mem_map, List.mem_range'_1] at h
  obtain ⟨i, hi, j, hj, rfl⟩ := h
  constructor
  · show i < j
    omega
  · show j < n
    omega

theorem aggregate_fromAligner {Params : Type} (probOne : Int)
    (pairwiseAlign : PairwiseAligner Params) (sequences : List String) (threshold : ℚ)
    (params : Params) (schedule : List (Nat × Nat))
    (hschedule : ∀ ij ∈ schedule, ij.1 < ij.2 ∧ ij.2 < sequences.length)
    (p : AlignedPair) (h : p ∈ aggregate probOne pairwiseAlign sequences threshold params schedule) :
    p.FromAligner pairwiseAlign sequences params := by
  simp only [aggregate, List.mem_flatMap, List.mem_map, List.mem_filter] at h
  obtain ⟨ij, hij, t, ⟨ht, _⟩, rfl⟩ := h
  obtain ⟨h1, h2⟩ := hschedule ij hij
  refine ⟨?_, ?_, ?_, ?_, ?_, ?_⟩
  · exact Int.ofNat_nonneg _
  · show (ij.1 : Int) < (sequences.length : Int)
    omega
  · exact Int.ofNat_nonneg _
  · show (ij.2 : Int) < (sequences.length : Int)
    omega
  · show (ij.1 : Int) ≠ (ij.2 : Int)
    omega
  · show (t.1, t.2.1, t.2.2) ∈
      pairwiseAlign (sequences.getD (ij.1 : Int).toNat "") (sequences.getD (ij.2 : Int).toNat "")
        params
    simpa using ht

theorem invariants_of_fromAligner {Params : Type} (probOne : Int)
    (pairwiseAlign : PairwiseAligner Params) (sequences : List String) (params : Params)
    (hcontract : AlignerContract probOne pairwiseAlign) (p : AlignedPair)
    (h : p.FromAligner pairwiseAlign sequences params) : p.Invariants probOne sequences := by
  obtain ⟨h1, h2, h3, h4, h5, hmem⟩ := h
  obtain ⟨c1, c2, c3, c4, c5, c6⟩ := hcontract _ _ _ _ hmem
  exact ⟨c1, c2, h1, h2, h3, h4, h5, c3, c4, c5, c6⟩

theorem resolve_fromAligner {Params : Type} (P : PosetAlignment) (probOne : Int)
    (pairwiseAlign : PairwiseAligner Params) (sequences : List String) (threshold : ℚ)
    (params : Params) (schedule : List (Nat × Nat))
    (hschedule : ∀ ij ∈ schedule, ij.1 < ij.2 ∧ ij.2 < sequences.length) (p : AlignedPair)
    (h : p ∈ resolve P sequences.length
      (aggregate probOne pairwiseAlign sequences threshold params schedule)) :
    p.FromAligner pairwiseAlign sequences params :=
  aggregate_fromAligner probOne pairwiseAlign sequences threshold params schedule hschedule p
    (mem_resolve P _ _ p h)

theorem checkPair_of_invariants (probOne : Int) (sequences : List String) (p : AlignedPair)
    (h : p.Invariants probOne sequences) : checkPair probOne sequences p.toTuple = true := by
  obtain ⟨h1, h2, h3, h4, h5, h6, _, h8, h9, h10, h11⟩ := h
  simp only [checkPair, AlignedPair.toTuple, List.getD_cons_zero, List.getD_cons_succ,
    List.length_cons, List.length_nil, Bool.and_eq_true, decide_eq_true_eq, beq_iff_eq,
    gt_iff_lt, ge_iff_le]
  exact ⟨⟨⟨⟨⟨⟨⟨⟨⟨⟨trivial, h1⟩, h2⟩, h3⟩, h4⟩, h8⟩, h9⟩, h5⟩, h6⟩, h10⟩, h11⟩

theorem checkAlignmentFrom_iff (P : PosetAlignment) (probOne : Int) (sequences : List String)
    (s : P.State) (tuples : List (List Int)) :
    checkAlignmentFrom P probOne sequences s tuples = true ↔
      (∀ t ∈ tuples, checkPair probOne sequences t = true) ∧ replayFrom P s tuples = true := by
  induction tuples generalizing s with
  | nil => simp [checkAlignmentFrom, replayFrom]
  | cons t rest ih =>
    simp only [checkAlignmentFrom, replayFrom, List.mem_cons, forall_eq_or_imp, Bool.and_eq_true]
    cases hadd : P.add s (t.getD 1 0) (t.getD 2 0) (t.getD 3 0) (t.getD 4 0) with
    | none => simp
    | some s1 =>
      simp only [ih s1]
      exact and_assoc.symm

theorem searchPoset_rejections :
    ((searchPoset.add [] 0 0 1 0).bind fun s => searchPoset.add s 0 1 1 1).isSome = true ∧
    ((searchPoset.add [] 0 0 1 0).bind fun s => searchPoset.add s 0 0 1 1).isSome = false ∧
    ((searchPoset.add [] 0 0 1 1).bind fun s => searchPoset.add s 0 1 1 0).isSome = false ∧
    ((searchPoset.add [] 0 0 1 0).bind fun s =>
      (searchPoset.add s 1 0 2 0).bind fun s => searchPoset.add s 2 1 0 1).isSome = true ∧
    ((searchPoset.add [] 0 0 1 1).bind fun s =>
      (searchPoset.add s 1 0 2 1).bind fun s => searchPoset.add s 2 0 0 1).isSome = false := by
  decide

theorem checkAlignment_passes {Params : Type} (P : PosetAlignment) (probOne : Int)
    (pairwiseAlign : PairwiseAligner Params) (sequences : List String) (threshold : ℚ)
    (params : Params) (hcontract : AlignerContract probOne pairwiseAlign) :
    checkAlignment P probOne sequences
      ((makeAlignmentUsingAllPairs P probOne pairwiseAlign sequences threshold params).map
        AlignedPair.toTuple) = true := by
  refine (checkAlignmentFrom_iff P probOne sequences _ _).2 ⟨?_, replayFrom_greedyAdd P _ _⟩
  intro t ht
  obtain ⟨p, hp, rfl⟩ := List.mem_map.1 ht
  exact checkPair_of_invariants probOne sequences p
    (invariants_of_fromAligner probOne pairwiseAlign sequences params hcontract p
      (resolve_fromAligner P probOne pairwiseAlign sequences threshold params
        (allPairs sequences.length) (fun ij hij => mem_allPairs _ ij hij) p hp))

theorem subsPerSite_littleColumns :
    [subsPerSite 0 1 (getDistanceMatrix littleColumns littleSequences 100000) 4,
      subsPerSite 0 2 (getDistanceMatrix littleColumns littleSequences 100000) 4,
      subsPerSite 0 3 (getDistanceMatrix littleColumns littleSequences 100000) 4,
      subsPerSite 1 2 (getDistanceMatrix littleColumns littleSequences 100000) 4,
      subsPerSite 1 3 (getDistanceMatrix littleColumns littleSequences 100000) 4,
      subsPerSite 2 3 (getDistanceMatrix littleColumns littleSequences 100000) 4]
      = [1 / 5, 1 / 2, 0, 1 / 2, 0, 0] := by
  decide!

end MultipleAligner

end Cactus
